import Mathlib

/-!
Verification development for the Relevia adaptive-learning repository.

This file gives a shallow embedding of the parts of the code that the
checked claims are about, and proves (or refutes) each claim against the
embedding.  The frontend components (AdaptiveLearning.tsx,
LearningRequestInput.tsx, ProgressDashboard.tsx) and the SQL schema
(supabase_init.sql) are translated directly from the source.  The backend
engine services (Interest Tracker, Topic Graph addChildren, Ontology
Expander, Diversity Guard) are not present under src/, so the definitions
for those components are modelled from the specification, as marked in
their doc comments.
-/

namespace Relevia

/-! ## Mastery level chain (AdaptiveLearning.tsx) -/

/-- The ordered chain of mastery-level labels rendered by the Level Circles
in AdaptiveLearning.tsx line 609. -/
def masteryChain : List String :=
  ["Novice", "Competent", "Proficient", "Expert", "Master"]

/-- The successor map of mastery levels, from the inline object in
AdaptiveLearning.tsx lines 450-455: keys are lowercase current levels,
values are the display name of the next level; absent keys (in particular
"master") have no successor. -/
def nextLevelMap : String → Option String
  | "novice" => some "Competent"
  | "competent" => some "Proficient"
  | "proficient" => some "Expert"
  | "expert" => some "Master"
  | _ => none

/-- The label actually rendered, AdaptiveLearning.tsx line 456:
`nextLevel[currentLevel] || 'next'`. -/
def nextLevelLabel (currentLevel : String) : String :=
  (nextLevelMap currentLevel).getD "next"

/-! ## Learning-request submission guard (LearningRequestInput.tsx) -/

/-- The `maxLength` attribute of the request textarea,
LearningRequestInput.tsx line 88. -/
def inputMaxLength : Nat := 500

/-- Whether `handleSubmit` reaches the request-sending branch,
LearningRequestInput.tsx lines 20-22:
`if (!requestText.trim() || requestText.length < 3) return;`. -/
def sendsLearningRequest (requestText : String) : Bool :=
  if requestText.trim = "" ∨ requestText.length < 3 then false else true

/-- The `disabled` condition of the submit button,
LearningRequestInput.tsx line 117. -/
def submitDisabled (isSubmitting : Bool) (requestText : String) : Bool :=
  if isSubmitting = true ∨ requestText.length < 3 then true else false

/-! ## Progress-record scale and the confidence display (supabase_init.sql,
AdaptiveLearning.tsx) -/

/-- Default of the `skill_level` column, supabase_init.sql line 73. -/
def skillLevelDefault : ℚ := 1/2

/-- Default of the `confidence` column, supabase_init.sql line 74. -/
def confidenceDefault : ℚ := 1/2

/-- The percentage formatter used for the [0,1]-ranged dashboard floats,
AdaptiveLearning.tsx line 305: `Math.round(value * 100)`. -/
def formatPercentage (value : ℚ) : ℤ := round (value * 100)

/-- The percentage rendered for a topic's confidence value,
AdaptiveLearning.tsx line 678:
`Math.round(((confidence || 0) / 10) * 100)`. -/
def confidencePercent (confidence : ℚ) : ℤ := round (confidence / 10 * 100)

/-! ## Dashboard loading (AdaptiveLearning.tsx loadDashboard) -/

/-- The `learning_state` block of the dashboard payload,
AdaptiveLearning.tsx lines 7-13. -/
structure LearningState where
  focus_area : String
  recent_accuracy : ℚ
  learning_momentum : ℚ
  readiness_score : ℚ
  sessions_completed : ℕ
  deriving DecidableEq

/-- The `exploration` block of the dashboard payload,
AdaptiveLearning.tsx lines 14-20. -/
structure Exploration where
  topics_unlocked : ℕ
  total_topics : ℕ
  exploration_coverage : ℚ
  recent_discoveries : ℕ
  discovery_rate : ℚ
  deriving DecidableEq

/-- The `interests` block of the dashboard payload,
AdaptiveLearning.tsx lines 21-25. -/
structure Interests where
  high_interest_topics : List String
  growing_interest_topics : List String
  total_topics_explored : ℕ
  deriving DecidableEq

/-- The `next_action` block of the dashboard payload,
AdaptiveLearning.tsx lines 26-30. -/
structure NextAction where
  type : String
  description : String
  confidence : ℚ
  deriving DecidableEq

/-- A dashboard response as received by `loadDashboard`; each block may be
missing from a malformed payload (an absent or null JSON field). -/
structure DashboardPayload where
  learning_state : Option LearningState
  exploration : Option Exploration
  interests : Option Interests
  next_action : Option NextAction
  deriving DecidableEq

/-- Outcome of the dashboard fetch: a parsed payload, or a thrown error
(network failure or invalid JSON). -/
inductive FetchOutcome where
  | success (d : DashboardPayload)
  | failure
  deriving DecidableEq

/-- The default dashboard installed by `loadDashboard` on a malformed or
failed response, AdaptiveLearning.tsx lines 130-155 and 160-185. -/
def defaultDashboard : DashboardPayload where
  learning_state := some
    { focus_area := "Starting your AI learning journey"
      recent_accuracy := 0
      learning_momentum := 0
      readiness_score := 1/2
      sessions_completed := 0 }
  exploration := some
    { topics_unlocked := 1
      total_topics := 1
      exploration_coverage := 0
      recent_discoveries := 0
      discovery_rate := 0 }
  interests := some
    { high_interest_topics := []
      growing_interest_topics := []
      total_topics_explored := 0 }
  next_action := some
    { type := "continue_learning"
      description := "Start your adaptive learning journey"
      confidence := 8/10 }

/-- The dashboard value held after `loadDashboard` completes,
AdaptiveLearning.tsx lines 119-187: the parsed payload is kept when
`data && data.learning_state && data.exploration && data.interests` holds,
and the default dashboard is installed otherwise (including when the fetch
throws). -/
def loadDashboard : FetchOutcome → DashboardPayload
  | .failure => defaultDashboard
  | .success d =>
    if d.learning_state.isSome ∧ d.exploration.isSome ∧ d.interests.isSome
    then d
    else defaultDashboard

/-- A payload that passes the structure check of `loadDashboard` while its
`next_action` block is missing. -/
def nextActionlessPayload : DashboardPayload :=
  { defaultDashboard with next_action := none }

/-! ## Question fetching and session reset (AdaptiveLearning.tsx) -/

/-- The component state touched by `getNextQuestion` and `resetSession`,
AdaptiveLearning.tsx lines 70-80 (the question is tracked by its id). -/
structure SessionState where
  sessionId : Option ℕ
  currentQuestion : Option ℕ
  isFocusedSession : Bool
  questionCount : ℕ
  isLoading : Bool
  deriving DecidableEq

/-- Outcome of the next-question fetch, AdaptiveLearning.tsx lines
228-248: a non-ok HTTP response, a JSON payload carrying an `error` field
(no more questions), a question payload, or a thrown fetch error. -/
inductive QuestionFetchOutcome where
  | httpNotOk
  | errorPayload
  | question (qid : ℕ)
  | fetchFailure
  deriving DecidableEq

/-- The session-reset helper, AdaptiveLearning.tsx lines 112-117. -/
def resetSession (st : SessionState) : SessionState :=
  { st with sessionId := none, currentQuestion := none, isFocusedSession := false }

/-- State transition of `getNextQuestion`, AdaptiveLearning.tsx lines
221-254; the returned Bool records whether `loadDashboard` was invoked to
refresh the dashboard.  A non-ok response clears only the question and
refreshes; an error payload or a thrown fetch error resets the whole
session and refreshes; a question payload installs the question. -/
def getNextQuestion (st : SessionState) (r : QuestionFetchOutcome) :
    SessionState × Bool :=
  match r with
  | .httpNotOk => ({ st with currentQuestion := none }, true)
  | .errorPayload => ({ resetSession st with isLoading := false }, true)
  | .question qid =>
      ({ st with
          currentQuestion := some qid
          questionCount := st.questionCount + 1
          isLoading := false }, false)
  | .fetchFailure => ({ resetSession st with isLoading := false }, true)

/-! ## Knowledge-tree construction (ProgressDashboard.tsx fetchProgress) -/

/-- A topic of the flat list returned by the progress endpoint,
ProgressDashboard.tsx lines 10-23 (restricted to the fields the tree
construction reads). -/
structure FlatTopic where
  id : ℕ
  name : String
  parent_id : Option ℕ
  deriving DecidableEq

/-- The outcome of the two-pass tree construction: the root ids collected
into `roots` and, for each fetched topic id, the ids pushed into that
node's `children` array, both in push order. -/
structure TreeBuild where
  roots : List ℕ
  childLists : List (ℕ × List ℕ)
  deriving DecidableEq

/-- Append child `c` to the child list stored under key `p` (the mutation
`parent.children.push(node)` on the map entry). -/
def addChild : List (ℕ × List ℕ) → ℕ → ℕ → List (ℕ × List ℕ)
  | [], _, _ => []
  | (q, cs) :: rest, p, c =>
      if q = p then (q, cs ++ [c]) :: rest else (q, cs) :: addChild rest p c

/-- Look up the child list stored under key `p` (the map read
`topicMap.get(...)`). -/
def lookupChildren (m : List (ℕ × List ℕ)) (p : ℕ) : Option (List ℕ) :=
  (m.find? (fun e => e.1 == p)).map Prod.snd

/-- One step of the second pass, ProgressDashboard.tsx lines 85-95: a
topic with null parent_id is pushed to `roots`; a topic whose parent_id is
a key of the map (an id of the fetched list) is pushed to that parent's
children; otherwise the topic is attached nowhere. -/
def buildStep (ids : List ℕ) (st : TreeBuild) (t : FlatTopic) : TreeBuild :=
  match t.parent_id with
  | none => { st with roots := st.roots ++ [t.id] }
  | some p =>
      if ids.contains p
      then { st with childLists := addChild st.childLists p t.id }
      else st

/-- The two-pass tree construction of `fetchProgress`, ProgressDashboard.tsx
lines 76-95: the first pass creates a map entry with an empty children
array for every fetched topic; the second pass folds `buildStep` over the
topics in input order. -/
def buildTree (ts : List FlatTopic) : TreeBuild :=
  ts.foldl (buildStep (ts.map FlatTopic.id))
    { roots := [], childLists := ts.map (fun t => (t.id, [])) }

/-- A concrete fetched topic list: a root, a child of the root, and an
orphan whose parent id 99 is absent from the list. -/
def demoTopics : List FlatTopic :=
  [⟨1, "Artificial Intelligence", none⟩,
   ⟨2, "Machine Learning", some 1⟩,
   ⟨3, "Orphan Topic", some 99⟩]

/-! ## Interest Tracker (backend service absent from src/) -/

/-- The behavioral signals of the Interest Tracker contract (§4.2). -/
inductive Signal where
  | correct
  | teach_me
  | skip
  | incorrect
  deriving DecidableEq

/-- Modelled from the spec: the Interest Tracker's per-signal deltas
(§4.2, matching README.md lines 160-163); the tracker service
`adaptive_interest_tracker.py` is not under src/. -/
def signalDelta : Signal → ℚ
  | .correct => 45/100
  | .teach_me => 15/100
  | .skip => -(40/100)
  | .incorrect => 0

/-- Modelled from the spec: the interest score of a newly created
InterestRecord defaults to the neutral midpoint (§3; the
`interest_score FLOAT DEFAULT 0.5` column of supabase_init.sql line
91). -/
def initialInterest : ℚ := 1/2

/-- Modelled from the spec: `applySignal` sets the new score to
clamp(old + delta, 0, 1) (§4.2); the tracker service is not under
src/. -/
def applySignal (score : ℚ) (s : Signal) : ℚ :=
  max 0 (min 1 (score + signalDelta s))

/-- The interest score after a sequence of signals applied from the
initial record. -/
def interestAfter (signals : List Signal) : ℚ :=
  signals.foldl applySignal initialInterest

/-! ## Diversity Guard (backend service absent from src/) -/

/-- Modelled from the spec: the union of the concept-tag sets of the
ConceptHistory window (§4.5); the `question_diversity_service.py` service
is not under src/. -/
def historyUnion (window : List (Finset String)) : Finset String :=
  window.foldl (fun acc s => acc ∪ s) ∅

/-- Modelled from the spec: `checkDiversity` computes
1 − |candidateConcepts ∩ union(ConceptHistory window)| /
|candidateConcepts| (§4.5); the guard service is not under src/. -/
def checkDiversity (candidateConcepts : Finset String)
    (window : List (Finset String)) : ℚ :=
  1 - ((candidateConcepts ∩ historyUnion window).card : ℚ)
        / (candidateConcepts.card : ℚ)

/-! ## Topic Graph and Ontology Expander (backend services absent from
src/) -/

/-- A topic node of the Topic Graph (§3): id, display name, parent
reference (nullable only for the root), depth. -/
structure Topic where
  id : ℕ
  name : String
  parent : Option ℕ
  depth : ℕ
  deriving DecidableEq

/-- The Topic Graph store: the arena of topic nodes plus the next fresh
id (§9 recommends arena-style id-based storage). -/
structure TopicStore where
  topics : List Topic
  nextId : ℕ
  deriving DecidableEq

/-- The child nodes created by a committed expansion: consecutive fresh
ids, parent link to the expanded topic, depth one below it. -/
def mkChildren (startId parentId pdepth : ℕ) : List String → List Topic
  | [] => []
  | n :: rest =>
      ⟨startId, n, some parentId, pdepth + 1⟩ ::
        mkChildren (startId + 1) parentId pdepth rest

/-- Modelled from the spec: Topic Graph `addChildren` (§4.3); the backend
service owning the graph is not under src/.  The call is atomic — all
children are added or none are: it fails with StructuralViolation when a
candidate name collides with an existing sibling's name or repeats inside
the candidate set (the schema-level counterpart is the
UNIQUE(name, parent_id) constraint of the topics table), and with
InvalidTopicState when the parent id is unknown. -/
def addChildren (s : TopicStore) (parentId : ℕ) (names : List String) :
    Except String TopicStore :=
  match s.topics.find? (fun t => t.id == parentId) with
  | none => .error "InvalidTopicState"
  | some parent =>
      if names.Nodup ∧
          ∀ n ∈ names, ∀ t ∈ s.topics, t.parent = some parentId → t.name ≠ n
      then .ok
        { topics := s.topics ++ mkChildren s.nextId parentId parent.depth names
          nextId := s.nextId + names.length }
      else .error "StructuralViolation"

/-- The initial store: the single root topic, depth 0. -/
def initialStore : TopicStore where
  topics := [⟨0, "Artificial Intelligence", none, 0⟩]
  nextId := 1

/-- The reachable states of the topic store: the initial store and
everything a committed `addChildren` call produces. -/
inductive Reachable : TopicStore → Prop where
  | init : Reachable initialStore
  | step {s s' : TopicStore} {parentId : ℕ} {names : List String} :
      Reachable s → addChildren s parentId names = .ok s' → Reachable s'

/-- Names are unique among siblings (§3). -/
def SiblingNamesUnique (s : TopicStore) : Prop :=
  ∀ t ∈ s.topics, ∀ u ∈ s.topics, t ≠ u → t.parent = u.parent → t.name ≠ u.name

/-- The store is a tree (§3): ids are distinct and bounded by the fresh
id, every non-root node's parent is a stored node with a smaller id (so
parent links are acyclic) and with depth one less, and exactly one root
exists. -/
def TreeShaped (s : TopicStore) : Prop :=
  (∀ t ∈ s.topics, t.id < s.nextId) ∧
  (s.topics.map Topic.id).Nodup ∧
  (∀ t ∈ s.topics, ∀ pid : ℕ, t.parent = some pid →
    ∃ u ∈ s.topics, u.id = pid ∧ t.depth = u.depth + 1 ∧ u.id < t.id) ∧
  s.topics.countP (fun t => t.parent.isNone) = 1

/-- The per-(user, topic) progress-record fields relevant to child
unlocking (user_skill_progress, supabase_init.sql lines 69-84). -/
structure ProgressRecord where
  topic_id : ℕ
  is_unlocked : Bool
  deriving DecidableEq

/-- Modelled from the spec: the Ontology Expander's successful commit
(§4.4); the expander service is not under src/.  The children are
committed through `addChildren`, and each child's progress record is
created with is_unlocked set exactly when the expansion was triggered by
an explicit learner request (inserting the column explicitly, so the
schema-level DEFAULT TRUE of supabase_init.sql line 80 does not
apply). -/
def commitExpansion (s : TopicStore) (progress : List ProgressRecord)
    (parentId : ℕ) (names : List String) (explicitRequest : Bool) :
    Option (TopicStore × List ProgressRecord) :=
  match addChildren s parentId names with
  | .ok s' =>
      some (s', progress ++ (List.range' s.nextId names.length).map
        (fun i => ⟨i, explicitRequest⟩))
  | .error _ => none

/-- The store after expanding the root with two children. -/
def exampleStore : TopicStore where
  topics :=
    [⟨0, "Artificial Intelligence", none, 0⟩,
     ⟨1, "Machine Learning", some 0, 1⟩,
     ⟨2, "Computer Vision", some 0, 1⟩]
  nextId := 3

/-- The store after expanding the root with a single child. -/
def exampleStoreML : TopicStore where
  topics :=
    [⟨0, "Artificial Intelligence", none, 0⟩,
     ⟨1, "Machine Learning", some 0, 1⟩]
  nextId := 2

end Relevia

namespace Relevia

/-! ## Theorems -/

/-- Claim C4: advancement moves exactly one step along the fixed chain
novice→competent→proficient→expert→master; master is terminal (the
successor map assigns it no successor), and each successor is exactly the
next entry of the rendered Level Circles chain. -/
theorem mastery_next_level_one_step :
    nextLevelMap "novice" = masteryChain.get? 1 ∧
    nextLevelMap "competent" = masteryChain.get? 2 ∧
    nextLevelMap "proficient" = masteryChain.get? 3 ∧
    nextLevelMap "expert" = masteryChain.get? 4 ∧
    nextLevelMap "master" = none ∧
    nextLevelLabel "master" = "next" :=
  ⟨rfl, rfl, rfl, rfl, rfl, rfl⟩

/-- Claim C10: a learning-topic request is sent only when the trimmed text
is non-empty and the raw text has length at least 3; any shorter input is
rejected before the request-sending branch, and the input is capped at 500
characters. -/
theorem learning_request_min_length :
    (∀ t : String, sendsLearningRequest t = true ↔ (t.trim ≠ "" ∧ 3 ≤ t.length)) ∧
    (∀ t : String, t.length < 3 → sendsLearningRequest t = false) ∧
    inputMaxLength = 500 := by
  refine ⟨?_, ?_, rfl⟩
  · intro t
    unfold sendsLearningRequest
    by_cases he : t.trim = "" ∨ t.length < 3
    · rw [if_pos he]
      constructor
      · intro h
        exact absurd h (by decide)
      · rintro ⟨h1, h2⟩
        rcases he with he | he
        · exact absurd he h1
        · omega
    · rw [if_neg he]
      push_neg at he
      exact ⟨fun _ => he, fun _ => rfl⟩
  · intro t h
    unfold sendsLearningRequest
    rw [if_pos (Or.inr h)]

/-- Witness for Claim C10's theorem at the concrete input "ab". -/
theorem learning_request_min_length_witness :
    "ab".length < 3 ∧ sendsLearningRequest "ab" = false :=
  ⟨by decide, learning_request_min_length.2.1 "ab" (by decide)⟩

/-- Claim C3 (code evaluation): the spec and schema put confidence in
[0,1] with default 0.5, and the claim says the displayed percentage of a
confidence value c is c×100; but the component renders
round((c/10)×100) — 5% at the schema default — and for any confidence in
[0,1] the rendered percentage can never exceed 10, while the sibling
formatter for the other [0,1] floats is round(c×100). -/
theorem confidence_percent_mismatch :
    confidencePercent confidenceDefault = 5 ∧
    formatPercentage confidenceDefault = 50 ∧
    (∀ c : ℚ, 0 ≤ c → c ≤ 1 → confidencePercent c ≤ 10) := by
  refine ⟨?_, ?_, ?_⟩
  · have h : confidenceDefault / 10 * 100 = ((5 : ℤ) : ℚ) := by
      unfold confidenceDefault
      norm_num
    unfold confidencePercent
    rw [h, round_intCast]
  · have h : confidenceDefault * 100 = ((50 : ℤ) : ℚ) := by
      unfold confidenceDefault
      norm_num
    unfold formatPercentage
    rw [h, round_intCast]
  · intro c _ hc1
    unfold confidencePercent
    have h1 : c / 10 * 100 = c * 10 := by ring
    rw [h1, round_eq]
    have h2 : c * 10 + 1 / 2 ≤ (21 : ℚ) / 2 := by linarith
    calc ⌊c * 10 + 1 / 2⌋ ≤ ⌊(21 : ℚ) / 2⌋ := Int.floor_le_floor h2
      _ = 10 := by
        rw [Int.floor_eq_iff]
        constructor <;> norm_num

/-- Witness for Claim C3's code-evaluation theorem at the in-range
confidence value 1/2. -/
theorem confidence_percent_mismatch_witness :
    (0 : ℚ) ≤ 1/2 ∧ (1/2 : ℚ) ≤ 1 ∧ confidencePercent (1/2) ≤ 10 :=
  ⟨by norm_num, by norm_num,
    confidence_percent_mismatch.2.2 (1/2) (by norm_num) (by norm_num)⟩

/-- Claim C6 (counterexample): `loadDashboard` does not always end with a
dashboard containing next_action — the structure check does not validate
next_action, so the concrete payload carrying learning_state, exploration
and interests but no next_action is accepted as-is and the resulting
dashboard lacks next_action. -/
theorem dashboard_next_action_not_guaranteed :
    loadDashboard (FetchOutcome.success nextActionlessPayload)
      = nextActionlessPayload ∧
    nextActionlessPayload.next_action = none ∧
    nextActionlessPayload.learning_state.isSome = true ∧
    nextActionlessPayload.exploration.isSome = true ∧
    nextActionlessPayload.interests.isSome = true :=
  ⟨rfl, rfl, rfl, rfl, rfl⟩

/-- Claim C6 (amended): for every fetch outcome — success with any payload,
malformed payload, or thrown fetch error — `loadDashboard` ends with a
dashboard containing learning_state, exploration and interests; the
fallback default additionally carries a next_action, but a successful
payload is not checked for next_action. -/
theorem dashboard_fallback_well_formed :
    (∀ r : FetchOutcome,
      (loadDashboard r).learning_state.isSome = true ∧
      (loadDashboard r).exploration.isSome = true ∧
      (loadDashboard r).interests.isSome = true) ∧
    (loadDashboard FetchOutcome.failure).next_action.isSome = true := by
  constructor
  · intro r
    cases r with
    | failure => exact ⟨rfl, rfl, rfl⟩
    | success d =>
      simp only [loadDashboard]
      by_cases h : d.learning_state.isSome ∧ d.exploration.isSome ∧ d.interests.isSome
      · rw [if_pos h]
        exact ⟨h.1, h.2.1, h.2.2⟩
      · rw [if_neg h]
        exact ⟨rfl, rfl, rfl⟩
  · rfl

/-- Claim C8: whenever the next-question fetch returns an error payload
(no further question available) or the request fails with a thrown error,
the session is ended: sessionId and currentQuestion become null, the
focused-session flag is cleared, and the dashboard is reloaded. -/
theorem question_unavailable_resets_session
    (st : SessionState) (r : QuestionFetchOutcome)
    (h : r = QuestionFetchOutcome.errorPayload ∨ r = QuestionFetchOutcome.fetchFailure) :
    (getNextQuestion st r).1.sessionId = none ∧
    (getNextQuestion st r).1.currentQuestion = none ∧
    (getNextQuestion st r).1.isFocusedSession = false ∧
    (getNextQuestion st r).2 = true := by
  rcases h with h | h <;> subst h <;> exact ⟨rfl, rfl, rfl, rfl⟩

/-- Appending under key `p` updates the list stored at `p`. -/
theorem lookupChildren_addChild_self (m : List (ℕ × List ℕ)) (p c : ℕ) :
    lookupChildren (addChild m p c) p
      = (lookupChildren m p).map (fun cs => cs ++ [c]) := by
  induction m with
  | nil => rfl
  | cons e rest ih =>
    obtain ⟨q, cs⟩ := e
    by_cases h : q = p
    · subst h
      simp [addChild, lookupChildren]
    · simp only [addChild, if_neg h]
      simp only [lookupChildren, List.find?_cons] at ih ⊢
      have hb : (q == p) = false := by
        simpa using h
      simp only [hb]
      exact ih

/-- Appending under a different key leaves the list stored at `p`
unchanged. -/
theorem lookupChildren_addChild_ne (m : List (ℕ × List ℕ)) (q p c : ℕ)
    (h : q ≠ p) :
    lookupChildren (addChild m q c) p = lookupChildren m p := by
  induction m with
  | nil => rfl
  | cons e rest ih =>
    obtain ⟨k, cs⟩ := e
    by_cases hk : k = q
    · subst hk
      have hb : (k == p) = false := by
        simpa using h
      simp [addChild, lookupChildren, hb]
    · simp only [addChild, if_neg hk]
      by_cases hp : k = p
      · subst hp
        simp [lookupChildren]
      · have hb : (k == p) = false := by
          simpa using hp
        simp only [lookupChildren, List.find?_cons, hb] at ih ⊢
        exact ih

/-- The roots accumulated by the second pass are exactly the ids of the
null-parent topics, in input order. -/
theorem foldl_buildStep_roots (ids : List ℕ) (l : List FlatTopic) (st : TreeBuild) :
    (l.foldl (buildStep ids) st).roots
      = st.roots ++ (l.filter (fun t => t.parent_id.isNone)).map FlatTopic.id := by
  induction l generalizing st with
  | nil => simp
  | cons t rest ih =>
    cases hp : t.parent_id with
    | none =>
      simp only [List.foldl_cons, buildStep, hp]
      rw [ih]
      simp [List.filter_cons, hp]
    | some p =>
      simp only [List.foldl_cons, buildStep, hp]
      by_cases hc : ids.contains p
      · rw [if_pos hc, ih]
        simp [List.filter_cons, hp]
      · rw [if_neg hc, ih]
        simp [List.filter_cons, hp]

/-- The child list accumulated under a present key `p` collects the ids of
the topics whose parent_id is `p`, in input order. -/
theorem foldl_buildStep_children (ids : List ℕ) (l : List FlatTopic)
    (st : TreeBuild) (p : ℕ) (hp : ids.contains p = true) (cs : List ℕ)
    (h : lookupChildren st.childLists p = some cs) :
    lookupChildren (l.foldl (buildStep ids) st).childLists p
      = some (cs ++ (l.filter (fun t => t.parent_id == some p)).map FlatTopic.id) := by
  induction l generalizing st cs with
  | nil => simpa using h
  | cons t rest ih =>
    cases hpt : t.parent_id with
    | none =>
      simp only [List.foldl_cons, buildStep, hpt]
      rw [ih ⟨st.roots ++ [t.id], st.childLists⟩ cs h]
      simp [List.filter_cons, hpt]
    | some q =>
      simp only [List.foldl_cons, buildStep, hpt]
      by_cases hq : q = p
      · subst hq
        rw [if_pos hp]
        have h2 : lookupChildren (addChild st.childLists q t.id) q
            = some (cs ++ [t.id]) := by
          rw [lookupChildren_addChild_self, h]
          rfl
        rw [ih _ _ h2]
        simp [List.filter_cons, hpt]
      · have hbq : (some q == some p) = false := by
          simpa using hq
        by_cases hc : ids.contains q
        · rw [if_pos hc]
          have h2 : lookupChildren (addChild st.childLists q t.id) p = some cs := by
            rw [lookupChildren_addChild_ne _ _ _ _ hq]
            exact h
          rw [ih _ _ h2]
          simp [List.filter_cons, hpt, hbq]
        · rw [if_neg hc, ih st cs h]
          simp [List.filter_cons, hpt, hbq]

/-- A key absent from the child map stays absent through the second
pass. -/
theorem foldl_buildStep_children_none (ids : List ℕ) (l : List FlatTopic)
    (st : TreeBuild) (p : ℕ)
    (h : lookupChildren st.childLists p = none) :
    lookupChildren (l.foldl (buildStep ids) st).childLists p = none := by
  induction l generalizing st with
  | nil => exact h
  | cons t rest ih =>
    cases hpt : t.parent_id with
    | none =>
      simp only [List.foldl_cons, buildStep, hpt]
      exact ih _ h
    | some q =>
      simp only [List.foldl_cons, buildStep, hpt]
      by_cases hc : ids.contains q
      · rw [if_pos hc]
        apply ih
        by_cases hq : q = p
        · subst hq
          rw [lookupChildren_addChild_self, h]
          rfl
        · rw [lookupChildren_addChild_ne _ _ _ _ hq]
          exact h
      · rw [if_neg hc]
        exact ih _ h

/-- The first pass creates an empty child list exactly for the fetched
ids. -/
theorem lookupChildren_init (ts : List FlatTopic) (p : ℕ) :
    lookupChildren (ts.map (fun t => (t.id, ([] : List ℕ)))) p
      = if (ts.map FlatTopic.id).contains p then some [] else none := by
  induction ts with
  | nil => rfl
  | cons t rest ih =>
    simp only [List.map_cons, List.contains_cons]
    by_cases h : t.id = p
    · have hb : (t.id == p) = true := by
        simpa using h
      have hb2 : (p == t.id) = true := by
        simpa using h.symm
      simp [lookupChildren, List.find?_cons, hb, hb2]
    · have hb : (t.id == p) = false := by
        simpa using h
      have hb2 : (p == t.id) = false := by
        simpa using fun e => h e.symm
      simp only [lookupChildren, List.find?_cons, hb, hb2, Bool.false_or] at ih ⊢
      simpa using ih

/-- Closed form of the child map produced by `buildTree`. -/
theorem buildTree_childLists (ts : List FlatTopic) (p : ℕ) :
    lookupChildren (buildTree ts).childLists p
      = if (ts.map FlatTopic.id).contains p
        then some ((ts.filter (fun t => t.parent_id == some p)).map FlatTopic.id)
        else none := by
  unfold buildTree
  by_cases hc : (ts.map FlatTopic.id).contains p
  · rw [if_pos hc]
    have h0 : lookupChildren (ts.map (fun t => (t.id, ([] : List ℕ)))) p
        = some [] := by
      rw [lookupChildren_init, if_pos hc]
    simpa using foldl_buildStep_children _ ts _ p hc [] h0
  · rw [if_neg hc]
    apply foldl_buildStep_children_none
    rw [lookupChildren_init, if_neg hc]

/-- Closed form of the root list produced by `buildTree`. -/
theorem buildTree_roots (ts : List FlatTopic) :
    (buildTree ts).roots
      = (ts.filter (fun t => t.parent_id.isNone)).map FlatTopic.id := by
  unfold buildTree
  rw [foldl_buildStep_roots]
  rfl

/-- Claim C9: building the knowledge tree from the flat topic list makes
every null-parent topic a root, appends every topic whose parent_id is a
fetched id to that parent's children in input order, and attaches a topic
whose parent_id is absent from the fetched list to no node at all. -/
theorem progress_tree_build_correct (ts : List FlatTopic)
    (hnd : (ts.map FlatTopic.id).Nodup) :
    ((buildTree ts).roots
        = (ts.filter (fun t => t.parent_id.isNone)).map FlatTopic.id) ∧
    (∀ p ∈ ts, lookupChildren (buildTree ts).childLists p.id
        = some ((ts.filter (fun t => t.parent_id == some p.id)).map FlatTopic.id)) ∧
    (∀ t ∈ ts, ∀ q : ℕ, t.parent_id = some q →
      (ts.map FlatTopic.id).contains q = false →
      t.id ∉ (buildTree ts).roots ∧
      ∀ p cs, lookupChildren (buildTree ts).childLists p = some cs →
        t.id ∉ cs) := by
  refine ⟨buildTree_roots ts, ?_, ?_⟩
  · intro p hp
    have hm : p.id ∈ ts.map FlatTopic.id := List.mem_map_of_mem _ hp
    have hc : (ts.map FlatTopic.id).contains p.id = true := by
      simpa using hm
    rw [buildTree_childLists, if_pos hc]
  · intro t ht q hq hcont
    have hinj := List.inj_on_of_nodup_map hnd
    constructor
    · rw [buildTree_roots]
      intro hmem
      obtain ⟨u, hu, hid⟩ := List.mem_map.mp hmem
      obtain ⟨humem, hun⟩ := List.mem_filter.mp hu
      have : u = t := hinj humem ht hid
      subst this
      rw [hq] at hun
      simp at hun
    · intro p cs hl
      rw [buildTree_childLists] at hl
      by_cases hc : (ts.map FlatTopic.id).contains p
      · rw [if_pos hc] at hl
        injection hl with hl
        subst hl
        intro hmem
        obtain ⟨u, hu, hid⟩ := List.mem_map.mp hmem
        obtain ⟨humem, hup⟩ := List.mem_filter.mp hu
        have hup2 : u.parent_id = some p := by
          simpa using hup
        have : u = t := hinj humem ht hid
        subst this
        rw [hq] at hup2
        injection hup2 with hqp
        subst hqp
        rw [hc] at hcont
        exact absurd hcont (by decide)
      · rw [if_neg hc] at hl
        exact absurd hl (by simp)

/-- Witness for Claim C9's theorem at the concrete fetched list
`demoTopics`. -/
theorem progress_tree_build_correct_witness :
    lookupChildren (buildTree demoTopics).childLists 1
      = some ((demoTopics.filter
          (fun t => t.parent_id == some 1)).map FlatTopic.id) ∧
    (3 : ℕ) ∉ (buildTree demoTopics).roots := by
  have h := progress_tree_build_correct demoTopics (by decide)
  exact ⟨h.2.1 ⟨1, "Artificial Intelligence", none⟩ (by decide),
    (h.2.2 ⟨3, "Orphan Topic", some 99⟩ (by decide) 99 rfl (by decide)).1⟩

/-- Witness for Claim C8's theorem at a concrete in-flight session state
and the error-payload outcome. -/
theorem question_unavailable_resets_session_witness :
    (getNextQuestion ⟨some 7, some 3, true, 4, true⟩
        QuestionFetchOutcome.errorPayload).1.sessionId = none ∧
    (getNextQuestion ⟨some 7, some 3, true, 4, true⟩
        QuestionFetchOutcome.errorPayload).1.currentQuestion = none ∧
    (getNextQuestion ⟨some 7, some 3, true, 4, true⟩
        QuestionFetchOutcome.errorPayload).1.isFocusedSession = false ∧
    (getNextQuestion ⟨some 7, some 3, true, 4, true⟩
        QuestionFetchOutcome.errorPayload).2 = true :=
  question_unavailable_resets_session ⟨some 7, some 3, true, 4, true⟩
    QuestionFetchOutcome.errorPayload (Or.inl rfl)

/-- Folding clamped signal updates from any score in the unit interval
stays in the unit interval. -/
theorem interest_foldl_bounds (signals : List Signal) (x : ℚ)
    (h0 : 0 ≤ x) (h1 : x ≤ 1) :
    0 ≤ signals.foldl applySignal x ∧ signals.foldl applySignal x ≤ 1 := by
  induction signals generalizing x with
  | nil => exact ⟨h0, h1⟩
  | cons s rest ih =>
    rw [List.foldl_cons]
    refine ih (applySignal x s) (le_max_left 0 _) ?_
    apply max_le
    · norm_num
    · exact min_le_left 1 _

/-- Claim C5: the interest score starts at the neutral midpoint 0.5 on
first interaction and remains within [0,1] after any sequence of valid
signals (correct, teach_me, skip, incorrect). -/
theorem interest_score_bounded :
    initialInterest = 1/2 ∧
    ∀ signals : List Signal,
      0 ≤ interestAfter signals ∧ interestAfter signals ≤ 1 := by
  refine ⟨rfl, fun signals => ?_⟩
  exact interest_foldl_bounds signals initialInterest
    (by norm_num [initialInterest]) (by norm_num [initialInterest])

/-- Membership in the folded union of the history window. -/
theorem mem_historyUnion (window : List (Finset String)) (x : String) :
    x ∈ historyUnion window ↔ ∃ s ∈ window, x ∈ s := by
  have key : ∀ (w : List (Finset String)) (acc : Finset String),
      x ∈ w.foldl (fun acc s => acc ∪ s) acc ↔ x ∈ acc ∨ ∃ s ∈ w, x ∈ s := by
    intro w
    induction w with
    | nil =>
      intro acc
      simp
    | cons s rest ih =>
      intro acc
      rw [List.foldl_cons, ih]
      simp only [Finset.mem_union, List.mem_cons]
      constructor
      · rintro ((h | h) | ⟨u, hu, hxu⟩)
        · exact Or.inl h
        · exact Or.inr ⟨s, Or.inl rfl, h⟩
        · exact Or.inr ⟨u, Or.inr hu, hxu⟩
      · rintro (h | ⟨u, (rfl | hu), hxu⟩)
        · exact Or.inl (Or.inl h)
        · exact Or.inl (Or.inr hxu)
        · exact Or.inr ⟨u, hu, hxu⟩
  rw [historyUnion, key]
  simp

/-- Claim C7: for every non-empty candidate concept set, the diversity
score 1 − |cand ∩ union(window)| / |cand| lies in [0,1]; it is 0 when the
candidate's concepts are all contained in the window's union, and 1 when
the candidate shares no concept with the history. -/
theorem diversity_score_correct (candidateConcepts : Finset String)
    (window : List (Finset String)) (hne : candidateConcepts.Nonempty) :
    (0 ≤ checkDiversity candidateConcepts window ∧
      checkDiversity candidateConcepts window ≤ 1) ∧
    (candidateConcepts ⊆ historyUnion window →
      checkDiversity candidateConcepts window = 0) ∧
    ((∀ s ∈ window, ∀ x ∈ candidateConcepts, x ∉ s) →
      checkDiversity candidateConcepts window = 1) := by
  have hcard : 0 < candidateConcepts.card := Finset.card_pos.mpr hne
  have hc0 : (0 : ℚ) < (candidateConcepts.card : ℚ) := by exact_mod_cast hcard
  refine ⟨⟨?_, ?_⟩, ?_, ?_⟩
  · have hk : (candidateConcepts ∩ historyUnion window).card
        ≤ candidateConcepts.card :=
      Finset.card_le_card Finset.inter_subset_left
    have hdiv : ((candidateConcepts ∩ historyUnion window).card : ℚ)
        / (candidateConcepts.card : ℚ) ≤ 1 := by
      rw [div_le_one hc0]
      exact_mod_cast hk
    unfold checkDiversity
    linarith
  · have hdiv : (0 : ℚ) ≤ ((candidateConcepts ∩ historyUnion window).card : ℚ)
        / (candidateConcepts.card : ℚ) := by positivity
    unfold checkDiversity
    linarith
  · intro hsub
    have hint : candidateConcepts ∩ historyUnion window = candidateConcepts :=
      Finset.inter_eq_left.mpr hsub
    unfold checkDiversity
    rw [hint, div_self (ne_of_gt hc0)]
    ring
  · intro hdisj
    have hint : candidateConcepts ∩ historyUnion window = ∅ := by
      apply Finset.eq_empty_iff_forall_not_mem.mpr
      intro x hx
      obtain ⟨hx1, hx2⟩ := Finset.mem_inter.mp hx
      obtain ⟨s, hs, hxs⟩ := (mem_historyUnion window x).mp hx2
      exact hdisj s hs x hx1 hxs
    unfold checkDiversity
    rw [hint]
    simp

/-- Witness for Claim C7's theorem at a concrete candidate set and
history window. -/
theorem diversity_score_correct_witness :
    (0 ≤ checkDiversity {"gradient", "descent"} [{"gradient"}, {"loss"}] ∧
      checkDiversity {"gradient", "descent"} [{"gradient"}, {"loss"}] ≤ 1) ∧
    (({"gradient", "descent"} : Finset String)
        ⊆ historyUnion [{"gradient"}, {"loss"}] →
      checkDiversity {"gradient", "descent"} [{"gradient"}, {"loss"}] = 0) ∧
    ((∀ s ∈ [({"gradient"} : Finset String), {"loss"}],
        ∀ x ∈ ({"gradient", "descent"} : Finset String), x ∉ s) →
      checkDiversity {"gradient", "descent"} [{"gradient"}, {"loss"}] = 1) :=
  diversity_score_correct {"gradient", "descent"} [{"gradient"}, {"loss"}]
    (Finset.insert_nonempty _ _)

/-- Every created child carries the parent link, the child depth, a fresh
id in the allocated range, and one of the candidate names. -/
theorem mkChildren_mem (startId parentId pdepth : ℕ) (names : List String) :
    ∀ t ∈ mkChildren startId parentId pdepth names,
      t.parent = some parentId ∧ t.depth = pdepth + 1 ∧
      startId ≤ t.id ∧ t.id < startId + names.length ∧ t.name ∈ names := by
  induction names generalizing startId with
  | nil =>
    intro t ht
    cases ht
  | cons n rest ih =>
    intro t ht
    rcases List.mem_cons.mp ht with rfl | ht
    · refine ⟨rfl, rfl, le_refl _, ?_, List.mem_cons_self _ _⟩
      simp
    · obtain ⟨h1, h2, h3, h4, h5⟩ := ih (startId + 1) t ht
      refine ⟨h1, h2, by omega, by simp; omega, List.mem_cons_of_mem _ h5⟩

/-- The created children's ids are the consecutive range of fresh ids. -/
theorem mkChildren_map_id (startId parentId pdepth : ℕ) (names : List String) :
    (mkChildren startId parentId pdepth names).map Topic.id
      = List.range' startId names.length := by
  induction names generalizing startId with
  | nil => rfl
  | cons n rest ih =>
    simp [mkChildren, List.range', ih]

/-- With pairwise-distinct candidate names, created children with equal
names are equal. -/
theorem mkChildren_name_inj (startId parentId pdepth : ℕ)
    (names : List String) (hnd : names.Nodup) :
    ∀ t ∈ mkChildren startId parentId pdepth names,
      ∀ u ∈ mkChildren startId parentId pdepth names,
        t.name = u.name → t = u := by
  induction names generalizing startId with
  | nil =>
    intro t ht
    cases ht
  | cons n rest ih =>
    obtain ⟨hn, hrest⟩ := List.nodup_cons.mp hnd
    intro t ht u hu he
    rcases List.mem_cons.mp ht with rfl | ht <;>
      rcases List.mem_cons.mp hu with rfl | hu
    · rfl
    · exfalso
      have hna := (mkChildren_mem (startId + 1) parentId pdepth rest u hu).2.2.2.2
      rw [← he] at hna
      exact hn hna
    · exfalso
      have hna := (mkChildren_mem (startId + 1) parentId pdepth rest t ht).2.2.2.2
      rw [he] at hna
      exact hn hna
    · exact ih (startId + 1) hrest t ht u hu he

/-- Inversion of a successful `addChildren` call. -/
theorem addChildren_ok (s s' : TopicStore) (parentId : ℕ)
    (names : List String)
    (h : addChildren s parentId names = .ok s') :
    ∃ parent ∈ s.topics, parent.id = parentId ∧
      names.Nodup ∧
      (∀ n ∈ names, ∀ t ∈ s.topics, t.parent = some parentId → t.name ≠ n) ∧
      s'.topics = s.topics ++ mkChildren s.nextId parentId parent.depth names ∧
      s'.nextId = s.nextId + names.length := by
  unfold addChildren at h
  split at h
  · cases h
  next parent hf =>
    split at h
    next hc =>
      injection h with h
      refine ⟨parent, List.mem_of_find?_eq_some hf, ?_, hc.1, hc.2, ?_, ?_⟩
      · have := List.find?_some hf
        simpa using this
      · rw [← h]
      · rw [← h]
    next =>
      cases h

/-- A successful `addChildren` call preserves sibling-name uniqueness and
tree shape. -/
theorem addChildren_preserves_inv (s s' : TopicStore) (parentId : ℕ)
    (names : List String)
    (hinv : SiblingNamesUnique s ∧ TreeShaped s)
    (h : addChildren s parentId names = .ok s') :
    SiblingNamesUnique s' ∧ TreeShaped s' := by
  obtain ⟨parent, hpmem, hpid, hnd, hnocol, htop, hnext⟩ :=
    addChildren_ok s s' parentId names h
  have hsib := hinv.1
  have hlt := hinv.2.1
  have hidnd := hinv.2.2.1
  have hpar := hinv.2.2.2.1
  have hroot := hinv.2.2.2.2
  constructor
  · intro t ht u hu hne hpe
    rw [htop] at ht hu
    rcases List.mem_append.mp ht with ht | ht <;>
      rcases List.mem_append.mp hu with hu | hu
    · exact hsib t ht u hu hne hpe
    · obtain ⟨hu1, _, _, _, hu5⟩ := mkChildren_mem _ _ _ _ u hu
      have htp : t.parent = some parentId := by
        rw [hpe, hu1]
      exact fun he => (hnocol u.name hu5 t ht htp) he
    · obtain ⟨ht1, _, _, _, ht5⟩ := mkChildren_mem _ _ _ _ t ht
      have hup : u.parent = some parentId := by
        rw [← hpe, ht1]
      exact fun he => (hnocol t.name ht5 u hu hup) he.symm
    · exact fun he => hne (mkChildren_name_inj _ _ _ _ hnd t ht u hu he)
  · refine ⟨?_, ?_, ?_, ?_⟩
    · intro t ht
      rw [htop] at ht
      rw [hnext]
      rcases List.mem_append.mp ht with ht | ht
      · have := hlt t ht
        omega
      · exact (mkChildren_mem _ _ _ _ t ht).2.2.2.1
    · rw [htop, List.map_append, mkChildren_map_id]
      refine List.Nodup.append hidnd (by simp [List.nodup_range']) ?_
      intro x hx1 hx2
      obtain ⟨t, ht, rfl⟩ := List.mem_map.mp hx1
      have hxlt := hlt t ht
      have hxge := (List.mem_range'_1.mp hx2).1
      omega
    · intro t ht pid hp
      rw [htop] at ht
      rcases List.mem_append.mp ht with ht | ht
      · obtain ⟨u, hu, h1, h2, h3⟩ := hpar t ht pid hp
        exact ⟨u, by rw [htop]; exact List.mem_append_left _ hu, h1, h2, h3⟩
      · obtain ⟨ht1, ht2, ht3, _, _⟩ := mkChildren_mem _ _ _ _ t ht
        rw [ht1] at hp
        injection hp with hp
        refine ⟨parent, by rw [htop]; exact List.mem_append_left _ hpmem,
          by rw [hpid, hp], ht2, ?_⟩
        have := hlt parent hpmem
        omega
    · rw [htop, List.countP_append, hroot]
      have hz : (mkChildren s.nextId parentId parent.depth names).countP
          (fun t => t.parent.isNone) = 0 := by
        apply List.countP_eq_zero.mpr
        intro t ht
        have := (mkChildren_mem _ _ _ _ t ht).1
        simp [this]
      rw [hz]

/-- Claim C2: every reachable state of the topic store is a tree with
names unique among siblings, and an `addChildren` call whose candidates
would collide with an existing sibling's name never commits (no children
are added). -/
theorem topic_store_tree_invariant (s : TopicStore) (hr : Reachable s) :
    SiblingNamesUnique s ∧ TreeShaped s ∧
    (∀ parentId : ℕ, ∀ names : List String,
      (∃ n ∈ names, ∃ t ∈ s.topics, t.parent = some parentId ∧ t.name = n) →
      ∀ s' : TopicStore, addChildren s parentId names ≠ .ok s') := by
  have key : SiblingNamesUnique s ∧ TreeShaped s := by
    induction hr with
    | init =>
      constructor
      · intro t ht u hu hne hpe
        rcases List.mem_singleton.mp ht with rfl
        rcases List.mem_singleton.mp hu with rfl
        exact absurd rfl hne
      · refine ⟨?_, ?_, ?_, rfl⟩
        · intro t ht
          rcases List.mem_singleton.mp ht with rfl
          decide
        · decide
        · intro t ht pid hp
          rcases List.mem_singleton.mp ht with rfl
          cases hp
    | step _ hok ih =>
      exact addChildren_preserves_inv _ _ _ _ ih hok
  refine ⟨key.1, key.2, ?_⟩
  rintro parentId names ⟨n, hn, t, ht, htp, htn⟩ s' hok
  obtain ⟨parent, _, _, _, hnocol, _, _⟩ := addChildren_ok _ _ _ _ hok
  exact (hnocol n hn t ht htp) htn

/-- Witness for Claim C2's theorem at the concrete store reached by
expanding the root with two children. -/
theorem topic_store_tree_invariant_witness :
    SiblingNamesUnique exampleStore ∧ TreeShaped exampleStore ∧
    (∀ parentId : ℕ, ∀ names : List String,
      (∃ n ∈ names, ∃ t ∈ exampleStore.topics,
        t.parent = some parentId ∧ t.name = n) →
      ∀ s' : TopicStore,
        addChildren exampleStore parentId names ≠ .ok s') :=
  topic_store_tree_invariant exampleStore
    (@Reachable.step initialStore exampleStore 0
      ["Machine Learning", "Computer Vision"] Reachable.init rfl)

/-- Claim C1: a committed subtopic expansion creates each new child's
progress record with is_unlocked set exactly when the expansion was
triggered by an explicit learner request; otherwise the record starts
locked. -/
theorem expansion_unlock_policy (s : TopicStore)
    (progress : List ProgressRecord) (parentId : ℕ) (names : List String)
    (explicitRequest : Bool) (s' : TopicStore)
    (progress' : List ProgressRecord)
    (h : commitExpansion s progress parentId names explicitRequest
        = some (s', progress')) :
    (∀ r ∈ progress'.drop progress.length, r.is_unlocked = explicitRequest) ∧
    progress'.length = progress.length + names.length ∧
    addChildren s parentId names = .ok s' := by
  unfold commitExpansion at h
  cases hok : addChildren s parentId names with
  | error e =>
    rw [hok] at h
    cases h
  | ok s'' =>
    rw [hok] at h
    injection h with h
    injection h with h1 h2
    subst h1
    subst h2
    refine ⟨?_, ?_, rfl⟩
    · rw [List.drop_left]
      intro r hr
      obtain ⟨i, _, rfl⟩ := List.mem_map.mp hr
      rfl
    · rw [List.length_append, List.length_map]
      congr 1
      simp

/-- Witness for Claim C1's theorem: expanding the root with one child
without an explicit learner request leaves the child's record locked. -/
theorem expansion_unlock_policy_witness :
    ({ topic_id := 1, is_unlocked := false } : ProgressRecord).is_unlocked
      = false ∧
    ([({ topic_id := 1, is_unlocked := false } : ProgressRecord)]
        : List ProgressRecord).length
      = ([] : List ProgressRecord).length + ["Machine Learning"].length := by
  have h := expansion_unlock_policy initialStore [] 0 ["Machine Learning"]
    false exampleStoreML [⟨1, false⟩] rfl
  refine ⟨?_, h.2.1⟩
  exact h.1 ⟨1, false⟩ (by decide)

end Relevia
